import Mathlib

/-!
Verification of the Guess the Number game
(`src/guess_the_number_frontend/App.tsx`).

The game logic is embedded shallowly:

* difficulty configuration, round state and the guess-submission logic are
  translated directly from `DIFFICULTIES`, `startNewGame`, `parseGuess`,
  `attemptLimitReached` and `handleSubmitGuess`;
* the leaderboard comparator, sorting and the save path are translated from
  `sortLeaderboard` and `handleSaveWin`;
* the startup load effect is translated as `loadLeaderboard`.

Modelling choices for the JavaScript platform primitives used by the code:

* `Number(string)` is modelled by `jsStringToNumber`, which implements the
  ECMAScript StringNumericLiteral grammar (decimal literals with optional
  fraction and exponent, hex / octal / binary literals, signed Infinity)
  exactly over integers, representing a finite value as a pair
  mantissa * 10 ^ exponent.  Overflow to Infinity and underflow to zero are
  modelled at the exact binary64 thresholds; rounding of values that are not
  exactly representable in binary64 is not modelled, so the model returns the
  exact mathematical value.  Every concrete evaluation below stays far inside
  the range where binary64 arithmetic is exact.
* `String.prototype.trim` is modelled by `jsTrim` with `Char.isWhitespace`
  as the whitespace class.
* `Array.prototype.sort` is required by ECMAScript 2019 to be stable, so it
  is modelled by the stable `List.insertionSort`.
* `a.localeCompare(b)` on ISO-8601 timestamp strings is modelled by
  code-unit comparison (`localeCompareInt`); only its sign is consumed.
* `JSON.parse` is an external platform primitive; the load effect is
  parameterised over an arbitrary parse function `String → Option Json`
  (`none` models a thrown SyntaxError), so the theorems hold for every
  behaviour of the real parser.
* randomness (`randomIntInclusive`), fresh ids and timestamps are
  externalised as parameters of the operations that the code derives them in.
-/

/-! ## Difficulty configuration (`DifficultyKey`, `DifficultyConfig`, `DIFFICULTIES`) -/

inductive DifficultyKey where
  | easy
  | medium
  | hard
  deriving DecidableEq, BEq

structure DifficultyConfig where
  key : DifficultyKey
  label : String
  min : Int
  max : Int
  maxAttempts : Nat
  deriving DecidableEq

def easyConfig : DifficultyConfig :=
  { key := .easy, label := "Easy", min := 1, max := 20, maxAttempts := 6 }

def mediumConfig : DifficultyConfig :=
  { key := .medium, label := "Medium", min := 1, max := 50, maxAttempts := 8 }

def hardConfig : DifficultyConfig :=
  { key := .hard, label := "Hard", min := 1, max := 100, maxAttempts := 10 }

def DIFFICULTIES : List DifficultyConfig := [easyConfig, mediumConfig, hardConfig]

/-- Lookup used by `startNewGame`:
`DIFFICULTIES.find((d) => d.key === nextDifficultyKey) ?? DIFFICULTIES[0]`. -/
def findConfig (key : DifficultyKey) : DifficultyConfig :=
  (DIFFICULTIES.find? (fun d => d.key == key)).getD easyConfig

/-! ## Model of `String.prototype.trim` -/

/-- Model of `String.prototype.trim` on the character list, with
`Char.isWhitespace` as the whitespace class. -/
def trimChars (cs : List Char) : List Char :=
  ((cs.dropWhile Char.isWhitespace).reverse.dropWhile Char.isWhitespace).reverse

def jsTrim (s : String) : String := ⟨trimChars s.data⟩

/-! ## Model of `Number(string)` (ECMAScript StringNumericLiteral) -/

/-- Result of converting a string to a JavaScript number: NaN, a signed
infinity, or the finite exact value `m * 10 ^ e`. -/
inductive JsNum where
  | nan
  | inf (neg : Bool)
  | fin (m : Int) (e : Int)

def hexDigitVal (c : Char) : Option Nat :=
  if c.isDigit then some (c.toNat - 48)
  else if 'a' ≤ c ∧ c ≤ 'f' then some (c.toNat - 97 + 10)
  else if 'A' ≤ c ∧ c ≤ 'F' then some (c.toNat - 65 + 10)
  else none

def octDigitVal (c : Char) : Option Nat :=
  if '0' ≤ c ∧ c ≤ '7' then some (c.toNat - 48) else none

def binDigitVal (c : Char) : Option Nat :=
  if c = '0' then some 0 else if c = '1' then some 1 else none

/-- Value of a non-empty run of digits of the given radix; `none` when a
character is not a digit of that radix or the run is empty. -/
def parseRadixDigits (base : Nat) (digitVal : Char → Option Nat)
    (cs : List Char) : Option Nat :=
  if cs.isEmpty then none
  else cs.foldl (fun acc c => acc.bind fun a => (digitVal c).map fun d => a * base + d)
    (some 0)

/-- `0x` / `0o` / `0b` NonDecimalIntegerLiteral (no sign, no exponent). -/
def parseNonDecimal (cs : List Char) : Option Nat :=
  match cs with
  | c0 :: p :: rest =>
    if c0 = '0' then
      if p = 'x' ∨ p = 'X' then parseRadixDigits 16 hexDigitVal rest
      else if p = 'o' ∨ p = 'O' then parseRadixDigits 8 octDigitVal rest
      else if p = 'b' ∨ p = 'B' then parseRadixDigits 2 binDigitVal rest
      else none
    else none
  | _ => none

/-- Base-10 value of a list of decimal digit characters. -/
def decDigitsVal (ds : List Char) : Nat :=
  ds.foldl (fun a c => a * 10 + (c.toNat - 48)) 0

/-- Parses the remainder of a decimal literal after mantissa and fraction:
either the end of the string or `e`/`E`, an optional sign, one or more
digits, and then the end of the string.  Returns the signed exponent. -/
def parseExponentTail (cs : List Char) : Option Int :=
  match cs with
  | [] => some 0
  | c :: rest =>
    if c = 'e' ∨ c = 'E' then
      let signed : Int × List Char :=
        match rest with
        | '+' :: r => (1, r)
        | '-' :: r => (-1, r)
        | r => (1, r)
      let ds := signed.2.takeWhile Char.isDigit
      let rest3 := signed.2.dropWhile Char.isDigit
      if ds.isEmpty ∨ ¬ rest3.isEmpty then none
      else some (signed.1 * (decDigitsVal ds : Int))
    else none

/-- StrUnsignedDecimalLiteral without the Infinity form, as an exact
mantissa / base-ten-exponent pair. -/
def parseDecLiteral (cs : List Char) : Option (Nat × Int) :=
  let ip := cs.takeWhile Char.isDigit
  let rest := cs.dropWhile Char.isDigit
  match rest with
  | c :: rest2 =>
    if c = '.' then
      let fp := rest2.takeWhile Char.isDigit
      let rest3 := rest2.dropWhile Char.isDigit
      if ip.isEmpty ∧ fp.isEmpty then none
      else (parseExponentTail rest3).map fun ex =>
        (decDigitsVal ip * 10 ^ fp.length + decDigitsVal fp, ex - (fp.length : Int))
    else
      if ip.isEmpty then none
      else (parseExponentTail (c :: rest2)).map fun ex => (decDigitsVal ip, ex)
  | [] =>
    if ip.isEmpty then none
    else (parseExponentTail []).map fun ex => (decDigitsVal ip, ex)

def stripSign (cs : List Char) : Bool × List Char :=
  match cs with
  | c :: r =>
    if c = '+' then (false, r)
    else if c = '-' then (true, r)
    else (false, cs)
  | [] => (false, cs)

/-- Smallest magnitude that binary64 rounding sends to Infinity:
`2 ^ 1024 - 2 ^ 970` (the midpoint between the largest finite double and
`2 ^ 1024`; round-to-even resolves the tie upward). -/
def overflowBound : Nat := 2 ^ 1024 - 2 ^ 970

/-- Whether the exact value `m * 10 ^ e` (with `m ≥ 0`) overflows binary64. -/
def jsOverflows (m : Nat) (e : Int) : Bool :=
  if 0 ≤ e then overflowBound ≤ m * 10 ^ e.toNat
  else overflowBound * 10 ^ (-e).toNat ≤ m

/-- Whether the exact positive value `m * 10 ^ e` rounds to zero in binary64:
`m * 10 ^ e ≤ 2 ^ (-1075)` (the midpoint between zero and the smallest
subnormal; round-to-even resolves the tie to zero). -/
def jsUnderflows (m : Nat) (e : Int) : Bool :=
  if m = 0 then false
  else if 0 ≤ e then false
  else m * 2 ^ 1075 ≤ 10 ^ (-e).toNat

/-- Model of `Number` applied to an already-trimmed string, per the
StringNumericLiteral grammar (see the module docstring for the binary64
abstraction). -/
def jsStringToNumber (cs : List Char) : JsNum :=
  if cs.isEmpty then .fin 0 0
  else match parseNonDecimal cs with
  | some n => .fin (n : Int) 0
  | none =>
    let sgn := stripSign cs
    if sgn.2 = "Infinity".data then .inf sgn.1
    else match parseDecLiteral sgn.2 with
      | some (m, e) =>
        if jsOverflows m e then .inf sgn.1
        else if jsUnderflows m e then .fin 0 0
        else .fin (if sgn.1 then -(m : Int) else (m : Int)) e
      | none => .nan

/-- Whether the finite value `m * 10 ^ e` is a mathematical integer. -/
def jsIsIntVal (m : Int) (e : Int) : Bool :=
  if 0 ≤ e then true else (10 ^ (-e).toNat : Int) ∣ m

/-- The integer value of `m * 10 ^ e`, assuming `jsIsIntVal m e`. -/
def jsIntVal (m : Int) (e : Int) : Int :=
  if 0 ≤ e then m * 10 ^ e.toNat else m / 10 ^ (-e).toNat

/-! ## Round engine (`parseGuess`, `startNewGame`, `handleSubmitGuess`) -/

/-- Translation of `parseGuess`: trim, reject the empty string, convert with
`Number`, and require a finite integer value. -/
def parseGuess (text : String) : Option Int :=
  let trimmed := trimChars text.data
  if trimmed.isEmpty then none
  else match jsStringToNumber trimmed with
  | .fin m e => if jsIsIntVal m e then some (jsIntVal m e) else none
  | _ => none

/-- The round state: the fields of the component state that the round engine
reads and writes (`target`, `attempts`, `hint`, `gameOver`), together with
the active difficulty configuration. -/
structure GameState where
  difficulty : DifficultyConfig
  target : Int
  attempts : Nat
  hint : String
  gameOver : Bool
  deriving DecidableEq

/-- Outcome taxonomy of one `handleSubmitGuess` call, naming the disjoint
code paths of the source function. -/
inductive Outcome where
  | alreadyOver
  | invalidInput
  | outOfRange
  | continueRound
  | won (attempts : Nat)
  | lost (target : Int)
  deriving DecidableEq

def promptHint (c : DifficultyConfig) : String :=
  "Guess a number between " ++ toString c.min ++ " and " ++ toString c.max ++ "."

def invalidHint : String := "Please enter a whole number."

def rangeHint (c : DifficultyConfig) : String :=
  "Your guess must be between " ++ toString c.min ++ " and " ++ toString c.max ++ "."

def winHint (n : Nat) : String :=
  "Correct! You guessed it in " ++ toString n ++ " attempt" ++
    (if n = 1 then "" else "s") ++ "."

def loseHint (target : Int) : String :=
  "Game over. The number was " ++ toString target ++ "."

/-- Translation of `startNewGame`; the random draw is externalised as the
`target` parameter. -/
def startNewGame (key : DifficultyKey) (target : Int) : GameState :=
  let config := findConfig key
  { difficulty := config
    target := target
    attempts := 0
    hint := promptHint config
    gameOver := false }

/-- Translation of `attemptLimitReached`. -/
def attemptLimitReached (c : DifficultyConfig) (nextAttempts : Nat) : Bool :=
  c.maxAttempts ≤ nextAttempts

/-- Translation of `handleSubmitGuess`.  The returned `Outcome` names the
code path taken; the returned state collects the final values of the
`setAttempts` / `setHint` / `setGameOver` calls of that path (for the losing
path the later `setHint` overwrites the higher / lower hint). -/
def handleSubmitGuess (st : GameState) (guessText : String) : GameState × Outcome :=
  if st.gameOver then (st, .alreadyOver)
  else match parseGuess guessText with
  | none => ({ st with hint := invalidHint }, .invalidInput)
  | some guess =>
    if guess < st.difficulty.min ∨ guess > st.difficulty.max then
      ({ st with hint := rangeHint st.difficulty }, .outOfRange)
    else
      let nextAttempts := st.attempts + 1
      if guess = st.target then
        ({ st with attempts := nextAttempts, gameOver := true,
                   hint := winHint nextAttempts }, .won nextAttempts)
      else if attemptLimitReached st.difficulty nextAttempts then
        ({ st with attempts := nextAttempts, gameOver := true,
                   hint := loseHint st.target }, .lost st.target)
      else
        ({ st with attempts := nextAttempts,
                   hint := if guess < st.target then "Higher." else "Lower." },
         .continueRound)

/-- A sequence of `handleSubmitGuess` calls on one round. -/
def runGuesses (st : GameState) (inputs : List String) : GameState :=
  inputs.foldl (fun s g => (handleSubmitGuess s g).1) st

/-! ## Leaderboard (`LeaderboardEntry`, `sortLeaderboard`, `handleSaveWin`) -/

structure LeaderboardEntry where
  id : String
  playerName : String
  difficulty : DifficultyKey
  attempts : Nat
  rangeMax : Int
  dateISO : String
  deriving DecidableEq

/-- The fixed severity order `{ easy: 0, medium: 1, hard: 2 }` of the
comparator. -/
def difficultyOrder : DifficultyKey → Nat
  | .easy => 0
  | .medium => 1
  | .hard => 2

/-- Lexicographic comparison of character lists by code point (the model of
JavaScript string comparison; on the ISO-8601 timestamps compared here all
characters are ASCII, where code-point and UTF-16 code-unit order agree). -/
def charListLt : List Char → List Char → Bool
  | [], [] => false
  | [], _ :: _ => true
  | _ :: _, [] => false
  | a :: as, b :: bs =>
    if a.toNat < b.toNat then true
    else if b.toNat < a.toNat then false
    else charListLt as bs

def strLt (s t : String) : Prop := charListLt s.data t.data = true

instance (s t : String) : Decidable (strLt s t) := by
  unfold strLt; exact inferInstance

/-- Non-strict string order: strictly smaller or equal. -/
def strLe (s t : String) : Prop := strLt s t ∨ s = t

instance (s t : String) : Decidable (strLe s t) := by
  unfold strLe; exact inferInstance

/-- Sign-faithful model of `s.localeCompare(t)` by code-unit comparison
(the comparator only consumes the sign; on ISO-8601 timestamps code-unit
order is chronological order). -/
def localeCompareInt (s t : String) : Int :=
  if strLt s t then -1 else if strLt t s then 1 else 0

/-- Translation of the comparator inside `sortLeaderboard`. -/
def compareEntries (a b : LeaderboardEntry) : Int :=
  if a.difficulty ≠ b.difficulty then
    (difficultyOrder a.difficulty : Int) - (difficultyOrder b.difficulty : Int)
  else if a.attempts ≠ b.attempts then
    (a.attempts : Int) - (b.attempts : Int)
  else localeCompareInt b.dateISO a.dateISO

/-- The non-strict order induced by the comparator: `a` sorts no later
than `b`. -/
def leEntries (a b : LeaderboardEntry) : Prop := compareEntries a b ≤ 0

instance (a b : LeaderboardEntry) : Decidable (leEntries a b) := by
  unfold leEntries; exact inferInstance

/-- Translation of `sortLeaderboard`: `Array.prototype.sort` with a
consistent comparator is the stable sort by the comparator order
(ECMAScript 2019), modelled by the stable `List.insertionSort`. -/
def sortLeaderboard (entries : List LeaderboardEntry) : List LeaderboardEntry :=
  List.insertionSort leEntries entries

/-- The ranking rule as the specification words it: easier difficulty first,
then fewer attempts, then the more recent timestamp. -/
def specRanksNoLowerThan (a b : LeaderboardEntry) : Prop :=
  difficultyOrder a.difficulty < difficultyOrder b.difficulty
  ∨ (a.difficulty = b.difficulty ∧ a.attempts < b.attempts)
  ∨ (a.difficulty = b.difficulty ∧ a.attempts = b.attempts ∧ strLe b.dateISO a.dateISO)

instance (a b : LeaderboardEntry) : Decidable (specRanksNoLowerThan a b) := by
  unfold specRanksNoLowerThan; exact inferInstance

/-- Strict version of the ranking rule: `a` ranks strictly above `b`. -/
def specRanksStrictlyAbove (a b : LeaderboardEntry) : Prop :=
  difficultyOrder a.difficulty < difficultyOrder b.difficulty
  ∨ (a.difficulty = b.difficulty ∧ a.attempts < b.attempts)
  ∨ (a.difficulty = b.difficulty ∧ a.attempts = b.attempts ∧ strLt b.dateISO a.dateISO)

instance (a b : LeaderboardEntry) : Decidable (specRanksStrictlyAbove a b) := by
  unfold specRanksStrictlyAbove; exact inferInstance

/-- Outcome taxonomy of one `handleSaveWin` call. -/
inductive SaveOutcome where
  | noPendingWin
  | nameRequired
  | saved
  deriving DecidableEq

/-- The entry `handleSaveWin` constructs; the fresh id and the timestamp are
externalised as parameters. -/
def savedEntry (winAttempts : Nat) (playerName : String) (difficulty : DifficultyConfig)
    (id dateISO : String) : LeaderboardEntry :=
  { id := id
    playerName := jsTrim playerName
    difficulty := difficulty.key
    attempts := winAttempts
    rangeMax := difficulty.max
    dateISO := dateISO }

/-- Translation of `handleSaveWin` (the leaderboard mutation; modal and
persistence effects are outside the modelled state). -/
def handleSaveWin (pendingWinAttempts : Option Nat) (playerName : String)
    (leaderboard : List LeaderboardEntry) (difficulty : DifficultyConfig)
    (id dateISO : String) : List LeaderboardEntry × SaveOutcome :=
  match pendingWinAttempts with
  | none => (leaderboard, .noPendingWin)
  | some winAttempts =>
    if jsTrim playerName = "" then (leaderboard, .nameRequired)
    else
      ((sortLeaderboard (savedEntry winAttempts playerName difficulty id dateISO
          :: leaderboard)).take 50,
       .saved)

/-! ## Startup load effect -/

/-- JSON values, as the possible results of `JSON.parse` (numbers are
abstracted to integers; the load logic only inspects the outermost shape). -/
inductive Json where
  | null
  | bool (b : Bool)
  | num (n : Int)
  | str (s : String)
  | arr (elems : List Json)
  | obj (members : List (String × Json))

/-- Translation of the startup load effect, parameterised over the behaviour
of `JSON.parse` (`none` models a thrown SyntaxError, which the code
catches).  `raw` is the result of `AsyncStorage.getItem`; the guard
`if (!raw) return` is also taken by the empty string.  The leaderboard stays
at its initial empty value unless a parsed array is stored verbatim —
without any validation of the elements. -/
def loadLeaderboard (parse : String → Option Json) (raw : Option String) :
    List Json :=
  match raw with
  | none => []
  | some r =>
    if r = "" then []
    else match parse r with
    | none => []
    | some (.arr xs) => xs
    | some _ => []

/-- A concrete parse function agreeing with `JSON.parse` on the inputs the
theorems below evaluate: `"[1]"` parses to the array `[1]`, `"7"` to the
number `7`, and anything else used is unparseable. -/
def jsonParseSample (s : String) : Option Json :=
  if s = "[1]" then some (.arr [.num 1])
  else if s = "7" then some (.num 7)
  else none

/-! ## Specification-side predicate for claim C5 -/

/-- A base-10 integer representation: an optional minus sign followed by one
or more decimal digits. -/
def isBase10IntString (cs : List Char) : Bool :=
  match cs with
  | c :: cs2 =>
    if c = '-' then ¬ cs2.isEmpty ∧ cs2.all Char.isDigit
    else (c :: cs2).all Char.isDigit
  | [] => false

/-- The integer a base-10 integer representation denotes. -/
def base10Val (cs : List Char) : Int :=
  match cs with
  | c :: cs2 =>
    if c = '-' then -(decDigitsVal cs2 : Int) else (decDigitsVal (c :: cs2) : Int)
  | [] => 0

/-! ## Concrete data for the scenario evaluations -/

/-- Round-state invariant maintained by `handleSubmitGuess`: the attempt
count never exceeds the cap, and strictly below it while the round is
still active. -/
def attemptsInv (st : GameState) : Prop :=
  st.attempts ≤ st.difficulty.maxAttempts
  ∧ (st.gameOver = false → st.attempts < st.difficulty.maxAttempts)

/-- Scenario entry of claim C2: Ann, a hard win in 4 attempts. -/
def annEntry : LeaderboardEntry :=
  { id := "a1", playerName := "Ann", difficulty := .hard, attempts := 4,
    rangeMax := 100, dateISO := "2024-03-01T10:00:00.000Z" }

/-- Scenario entry of claim C2: Bo, an easy win in 2 attempts. -/
def boEntry : LeaderboardEntry :=
  { id := "b1", playerName := "Bo", difficulty := .easy, attempts := 2,
    rangeMax := 20, dateISO := "2024-03-02T10:00:00.000Z" }

/-- Scenario entry of claim C2: Cy, an easy win in 5 attempts. -/
def cyEntry : LeaderboardEntry :=
  { id := "c1", playerName := "Cy", difficulty := .easy, attempts := 5,
    rangeMax := 20, dateISO := "2024-03-03T10:00:00.000Z" }

def tieDate : String := "2024-03-01T10:00:00.000Z"

/-- An existing entry whose ranking keys (difficulty, attempts, timestamp)
exactly tie with `tieNewEntry`. -/
def tieOldEntry : LeaderboardEntry :=
  { id := "old", playerName := "Old", difficulty := .easy, attempts := 3,
    rangeMax := 20, dateISO := tieDate }

/-- The newly recorded win with the same ranking keys as `tieOldEntry`. -/
def tieNewEntry : LeaderboardEntry := savedEntry 3 "New" easyConfig "new" tieDate

/-- An existing entry that ranks strictly above `domNewEntry`
(same difficulty, fewer attempts). -/
def domOldEntry : LeaderboardEntry :=
  { id := "old", playerName := "Old", difficulty := .easy, attempts := 1,
    rangeMax := 20, dateISO := tieDate }

/-- A newly recorded win strictly dominated by `domOldEntry`. -/
def domNewEntry : LeaderboardEntry := savedEntry 2 "New" easyConfig "new" tieDate

/-! ## Lemmas about the round engine -/

/-- A call on a finished round takes the early-return path and changes
nothing. -/
theorem submit_terminal_eq (st : GameState) (g : String) (h : st.gameOver = true) :
    handleSubmitGuess st g = (st, Outcome.alreadyOver) := by
  unfold handleSubmitGuess
  rw [if_pos h]

/-- An unparseable guess only rewrites the hint. -/
theorem submit_invalid (st : GameState) (g : String) (hgo : st.gameOver = false)
    (hp : parseGuess g = none) :
    handleSubmitGuess st g = ({ st with hint := invalidHint }, Outcome.invalidInput) := by
  unfold handleSubmitGuess
  rw [if_neg (by simp [hgo]), hp]

/-- An out-of-range guess only rewrites the hint. -/
theorem submit_outOfRange (st : GameState) (g : String) (v : Int)
    (hgo : st.gameOver = false) (hp : parseGuess g = some v)
    (hout : v < st.difficulty.min ∨ v > st.difficulty.max) :
    handleSubmitGuess st g = ({ st with hint := rangeHint st.difficulty }, Outcome.outOfRange) := by
  unfold handleSubmitGuess
  rw [if_neg (by simp [hgo]), hp]
  simp only [if_pos hout]

/-- A correct in-range guess wins, before the attempt limit is consulted. -/
theorem submit_won (st : GameState) (g : String) (hgo : st.gameOver = false)
    (hp : parseGuess g = some st.target)
    (hin : ¬(st.target < st.difficulty.min ∨ st.target > st.difficulty.max)) :
    handleSubmitGuess st g
      = ({ st with attempts := st.attempts + 1, gameOver := true,
                   hint := winHint (st.attempts + 1) },
         Outcome.won (st.attempts + 1)) := by
  unfold handleSubmitGuess
  rw [if_neg (by simp [hgo]), hp]
  simp [hin]

/-- A wrong in-range guess that consumes the last allowed attempt loses. -/
theorem submit_lost (st : GameState) (g : String) (v : Int)
    (hgo : st.gameOver = false) (hp : parseGuess g = some v)
    (hin : ¬(v < st.difficulty.min ∨ v > st.difficulty.max))
    (hne : v ≠ st.target) (hlim : st.difficulty.maxAttempts ≤ st.attempts + 1) :
    handleSubmitGuess st g
      = ({ st with attempts := st.attempts + 1, gameOver := true,
                   hint := loseHint st.target },
         Outcome.lost st.target) := by
  unfold handleSubmitGuess attemptLimitReached
  rw [if_neg (by simp [hgo]), hp]
  simp [hin, hne, hlim]

/-- A wrong in-range guess short of the limit continues the round. -/
theorem submit_continue (st : GameState) (g : String) (v : Int)
    (hgo : st.gameOver = false) (hp : parseGuess g = some v)
    (hin : ¬(v < st.difficulty.min ∨ v > st.difficulty.max))
    (hne : v ≠ st.target) (hlim : st.attempts + 1 < st.difficulty.maxAttempts) :
    handleSubmitGuess st g
      = ({ st with attempts := st.attempts + 1,
                   hint := if v < st.target then "Higher." else "Lower." },
         Outcome.continueRound) := by
  unfold handleSubmitGuess attemptLimitReached
  rw [if_neg (by simp [hgo]), hp]
  have hnl : ¬ st.difficulty.maxAttempts ≤ st.attempts + 1 := by omega
  simp [hin, hne, hnl]

/-- One `handleSubmitGuess` call never changes the active difficulty. -/
theorem submit_difficulty_eq (st : GameState) (g : String) :
    (handleSubmitGuess st g).1.difficulty = st.difficulty := by
  unfold handleSubmitGuess
  split
  · rfl
  split
  · rfl
  split
  · rfl
  dsimp only
  split
  · rfl
  split
  · rfl
  · rfl

/-- One `handleSubmitGuess` call preserves the attempt-count invariant. -/
theorem attemptsInv_step (st : GameState) (g : String) (h : attemptsInv st) :
    attemptsInv (handleSubmitGuess st g).1 := by
  obtain ⟨h1, h2⟩ := h
  unfold handleSubmitGuess attemptLimitReached
  split
  · exact ⟨h1, h2⟩
  next hgo =>
    have hx : st.gameOver = false := by
      cases hh : st.gameOver
      · rfl
      · exact absurd hh hgo
    have hlt := h2 hx
    split
    · exact ⟨h1, fun _ => hlt⟩
    split
    · exact ⟨h1, fun _ => hlt⟩
    dsimp only
    split
    · exact ⟨show st.attempts + 1 ≤ st.difficulty.maxAttempts by omega,
             fun hc => absurd (show (true : Bool) = false from hc) (by simp)⟩
    split
    · exact ⟨show st.attempts + 1 ≤ st.difficulty.maxAttempts by omega,
             fun hc => absurd (show (true : Bool) = false from hc) (by simp)⟩
    next hnl =>
      have hn2 : ¬ st.difficulty.maxAttempts ≤ st.attempts + 1 := by simpa using hnl
      exact ⟨show st.attempts + 1 ≤ st.difficulty.maxAttempts by omega,
             fun _ => show st.attempts + 1 < st.difficulty.maxAttempts by omega⟩

theorem runGuesses_nil (st : GameState) : runGuesses st [] = st := rfl

theorem runGuesses_cons (st : GameState) (g : String) (gs : List String) :
    runGuesses st (g :: gs) = runGuesses (handleSubmitGuess st g).1 gs := rfl

/-- The attempt-count invariant is preserved by any sequence of calls. -/
theorem runGuesses_inv (gs : List String) :
    ∀ st : GameState, attemptsInv st → attemptsInv (runGuesses st gs) := by
  induction gs with
  | nil => exact fun st h => h
  | cons g gs ih => exact fun st h => ih _ (attemptsInv_step st g h)

/-- The active difficulty is fixed for the lifetime of a round. -/
theorem runGuesses_difficulty (gs : List String) :
    ∀ st : GameState, (runGuesses st gs).difficulty = st.difficulty := by
  induction gs with
  | nil => exact fun st => rfl
  | cons g gs ih =>
    exact fun st => (ih (handleSubmitGuess st g).1).trans (submit_difficulty_eq st g)

theorem findConfig_maxAttempts_pos (key : DifficultyKey) :
    0 < (findConfig key).maxAttempts := by
  cases key <;> decide

/-- A fresh round satisfies the attempt-count invariant. -/
theorem startNewGame_inv (key : DifficultyKey) (target : Int) :
    attemptsInv (startNewGame key target) :=
  ⟨Nat.zero_le _, fun _ => findConfig_maxAttempts_pos key⟩

/-! ## Claims C1, C3, C4, C6 -/

/-- C1: every round started by `startNewGame` keeps
`0 <= attempts <= maxAttempts` of the active difficulty under any sequence
of `submitGuess` calls (the lower bound holds because `attempts : Nat`),
and once `gameOver` is true a further `submitGuess` call returns the state
unchanged — so `attempts` is frozen and the terminal flag can only move
from false to true. -/
theorem round_attempts_invariant (key : DifficultyKey) (target : Int)
    (inputs : List String) :
    (runGuesses (startNewGame key target) inputs).attempts
        ≤ (startNewGame key target).difficulty.maxAttempts
    ∧ ∀ (st : GameState) (g : String), st.gameOver = true →
        handleSubmitGuess st g = (st, Outcome.alreadyOver) := by
  constructor
  · have h := (runGuesses_inv inputs _ (startNewGame_inv key target)).1
    rwa [runGuesses_difficulty] at h
  · exact fun st g h => submit_terminal_eq st g h

/-- Witness for C1 at a concrete round and a concrete finished state. -/
theorem round_attempts_invariant_witness :
    (runGuesses (startNewGame .easy 5) ["3", "4"]).attempts
        ≤ (startNewGame .easy 5).difficulty.maxAttempts
    ∧ handleSubmitGuess ⟨easyConfig, 5, 6, "done", true⟩ "3"
        = (⟨easyConfig, 5, 6, "done", true⟩, Outcome.alreadyOver) :=
  ⟨(round_attempts_invariant .easy 5 ["3", "4"]).1,
   (round_attempts_invariant .easy 5 ["3", "4"]).2 ⟨easyConfig, 5, 6, "done", true⟩ "3" rfl⟩

/-- C3: on a non-terminal round, an in-range guess equal to the target wins
with the incremented attempt count and sets the terminal flag, with no
hypothesis on how many attempts remain — the win branch is taken before
the attempt-limit check. -/
theorem winning_guess_precedence (st : GameState) (s : String)
    (hgo : st.gameOver = false) (hp : parseGuess s = some st.target)
    (hmin : st.difficulty.min ≤ st.target) (hmax : st.target ≤ st.difficulty.max) :
    handleSubmitGuess st s
      = ({ st with attempts := st.attempts + 1, gameOver := true,
                   hint := winHint (st.attempts + 1) },
         Outcome.won (st.attempts + 1)) :=
  submit_won st s hgo hp (by omega)

set_option maxRecDepth 8000 in
/-- Witness for C3 on the last allowed attempt of an easy round
(`attempts` goes from 5 to the cap 6 and the outcome is still a win). -/
theorem winning_guess_precedence_witness :
    (⟨easyConfig, 7, 5, "hint", false⟩ : GameState).gameOver = false
    ∧ parseGuess "7" = some ((⟨easyConfig, 7, 5, "hint", false⟩ : GameState).target)
    ∧ handleSubmitGuess ⟨easyConfig, 7, 5, "hint", false⟩ "7"
        = (⟨easyConfig, 7, 6, winHint 6, true⟩, Outcome.won 6) :=
  ⟨rfl, by decide,
   winning_guess_precedence ⟨easyConfig, 7, 5, "hint", false⟩ "7" rfl (by decide)
     (by decide) (by decide)⟩

/-- C4: on a non-terminal round, an in-range wrong guess whose incremented
attempt count reaches `maxAttempts` loses: the terminal flag is set and the
final hint reveals the target number. -/
theorem losing_final_guess (st : GameState) (s : String) (v : Int)
    (hgo : st.gameOver = false) (hp : parseGuess s = some v)
    (hmin : st.difficulty.min ≤ v) (hmax : v ≤ st.difficulty.max)
    (hne : v ≠ st.target) (hreach : st.attempts + 1 = st.difficulty.maxAttempts) :
    handleSubmitGuess st s
      = ({ st with attempts := st.attempts + 1, gameOver := true,
                   hint := loseHint st.target },
         Outcome.lost st.target) :=
  submit_lost st s v hgo hp (by omega) hne (by omega)

set_option maxRecDepth 8000 in
/-- Witness for C4: a sixth wrong guess on an easy round loses and the hint
names the target. -/
theorem losing_final_guess_witness :
    (⟨easyConfig, 7, 5, "hint", false⟩ : GameState).gameOver = false
    ∧ parseGuess "9" = some 9
    ∧ (9 : Int) ≠ 7
    ∧ handleSubmitGuess ⟨easyConfig, 7, 5, "hint", false⟩ "9"
        = (⟨easyConfig, 7, 6, loseHint 7, true⟩, Outcome.lost 7) :=
  ⟨rfl, by decide, by decide,
   losing_final_guess ⟨easyConfig, 7, 5, "hint", false⟩ "9" 9 rfl (by decide)
     (by decide) (by decide) (by decide) (by decide)⟩

/-- C6: on a non-terminal round, a rejected guess — unparseable input, or a
parsed integer outside the difficulty range — changes only the hint (the
record update keeps `attempts`, `target` and `gameOver` untouched) and
returns the corresponding rejection outcome, with the out-of-range hint
restating the bounds. -/
theorem rejected_guess_frame (st : GameState) (s : String)
    (hgo : st.gameOver = false) :
    (parseGuess s = none →
        handleSubmitGuess st s = ({ st with hint := invalidHint }, Outcome.invalidInput))
    ∧ ∀ v : Int, parseGuess s = some v →
        v < st.difficulty.min ∨ v > st.difficulty.max →
        handleSubmitGuess st s
          = ({ st with hint := rangeHint st.difficulty }, Outcome.outOfRange) :=
  ⟨submit_invalid st s hgo, fun v hp hout => submit_outOfRange st s v hgo hp hout⟩

set_option maxRecDepth 8000 in
/-- Witness for C6: an unparseable guess and an out-of-range guess on a
concrete easy-round state. -/
theorem rejected_guess_frame_witness :
    handleSubmitGuess ⟨easyConfig, 7, 2, "hint", false⟩ "xyz"
        = (⟨easyConfig, 7, 2, invalidHint, false⟩, Outcome.invalidInput)
    ∧ handleSubmitGuess ⟨easyConfig, 7, 2, "hint", false⟩ "25"
        = (⟨easyConfig, 7, 2, rangeHint easyConfig, false⟩, Outcome.outOfRange) :=
  ⟨(rejected_guess_frame ⟨easyConfig, 7, 2, "hint", false⟩ "xyz" rfl).1 (by decide),
   (rejected_guess_frame ⟨easyConfig, 7, 2, "hint", false⟩ "25" rfl).2 25 (by decide)
     (by decide)⟩

/-! ## Lemmas about the number parser on base-10 integer strings -/

theorem ne_of_isDigit (c x : Char) (h : c.isDigit = true) (hx : ¬ x.isDigit = true) :
    c ≠ x := fun he => hx (he ▸ h)

theorem two53_lt_overflowBound : 2 ^ 53 < overflowBound := by
  unfold overflowBound
  have h1 : (2 : Nat) ^ 53 < 2 ^ 970 := Nat.pow_lt_pow_right (by norm_num) (by norm_num)
  have h2 : (2 : Nat) ^ 970 + 2 ^ 970 ≤ 2 ^ 1024 := by
    have he : (2 : Nat) ^ 970 + 2 ^ 970 = 2 ^ 971 := by ring
    rw [he]
    exact Nat.pow_le_pow_right (by norm_num) (by norm_num)
  omega

theorem jsOverflows_small (m : Nat) (hm : m < 2 ^ 53) : jsOverflows m 0 = false := by
  have hb := two53_lt_overflowBound
  simp only [jsOverflows]
  rw [if_pos (by decide)]
  simp only [Int.toNat_zero, pow_zero, mul_one, decide_eq_false_iff_not, not_le]
  exact lt_trans hm hb

theorem jsUnderflows_zero (m : Nat) : jsUnderflows m 0 = false := by
  unfold jsUnderflows
  split
  · rfl
  · rw [if_pos (by decide)]

theorem parseDecLiteral_digits (ds : List Char) (h1 : ds ≠ [])
    (h2 : ds.all Char.isDigit = true) :
    parseDecLiteral ds = some (decDigitsVal ds, 0) := by
  have hall : ∀ x ∈ ds, Char.isDigit x := by simpa using h2
  have ht : ds.takeWhile Char.isDigit = ds := List.takeWhile_eq_self_iff.mpr hall
  have hd : ds.dropWhile Char.isDigit = [] := List.dropWhile_eq_nil_iff.mpr hall
  simp only [parseDecLiteral, ht, hd, parseExponentTail]
  simp [h1]

theorem parseNonDecimal_digits (ds : List Char) (h2 : ds.all Char.isDigit = true) :
    parseNonDecimal ds = none := by
  match ds with
  | [] => rfl
  | [c] => rfl
  | c0 :: p :: rest =>
    simp only [List.all_cons, Bool.and_eq_true] at h2
    obtain ⟨hc0, hp, _⟩ := h2
    simp only [parseNonDecimal]
    by_cases h0 : c0 = '0'
    · rw [if_pos h0]
      rw [if_neg (by rintro (rfl | rfl) <;> exact absurd hp (by decide))]
      rw [if_neg (by rintro (rfl | rfl) <;> exact absurd hp (by decide))]
      rw [if_neg (by rintro (rfl | rfl) <;> exact absurd hp (by decide))]
    · rw [if_neg h0]

theorem parseNonDecimal_neg (ds : List Char) : parseNonDecimal ('-' :: ds) = none := by
  match ds with
  | [] => rfl
  | c :: cs =>
    simp only [parseNonDecimal]
    rw [if_neg (by decide)]

theorem stripSign_digit (c : Char) (cs : List Char) (hc : c.isDigit = true) :
    stripSign (c :: cs) = (false, c :: cs) := by
  simp only [stripSign]
  rw [if_neg (ne_of_isDigit c '+' hc (by decide)),
      if_neg (ne_of_isDigit c '-' hc (by decide))]

theorem stripSign_neg (cs : List Char) : stripSign ('-' :: cs) = (true, cs) := by
  simp only [stripSign]
  rw [if_neg (by decide)]
  simp

theorem digits_ne_infinity (ds : List Char) (h2 : ds.all Char.isDigit = true) :
    ds ≠ "Infinity".data := by
  intro h
  rw [h] at h2
  exact absurd h2 (by decide)

theorem jsStringToNumber_digits (ds : List Char) (h1 : ds ≠ [])
    (h2 : ds.all Char.isDigit = true) (h3 : decDigitsVal ds < 2 ^ 53) :
    jsStringToNumber ds = JsNum.fin (decDigitsVal ds) 0 := by
  match ds with
  | c :: cs =>
    have hc : c.isDigit = true := by
      simp only [List.all_cons, Bool.and_eq_true] at h2
      exact h2.1
    unfold jsStringToNumber
    rw [if_neg (by simp)]
    rw [parseNonDecimal_digits _ h2]
    simp only [stripSign_digit c cs hc]
    rw [if_neg (digits_ne_infinity _ h2)]
    rw [parseDecLiteral_digits _ h1 h2]
    simp only [jsOverflows_small _ h3, jsUnderflows_zero]
    simp

theorem jsStringToNumber_neg_digits (ds : List Char) (h1 : ds ≠ [])
    (h2 : ds.all Char.isDigit = true) (h3 : decDigitsVal ds < 2 ^ 53) :
    jsStringToNumber ('-' :: ds) = JsNum.fin (-(decDigitsVal ds : Int)) 0 := by
  unfold jsStringToNumber
  rw [if_neg (by simp)]
  rw [parseNonDecimal_neg ds]
  simp only [stripSign_neg ds]
  rw [if_neg (digits_ne_infinity _ h2)]
  rw [parseDecLiteral_digits _ h1 h2]
  simp only [jsOverflows_small _ h3, jsUnderflows_zero]
  simp

theorem jsIsIntVal_zero (m : Int) : jsIsIntVal m 0 = true := by
  unfold jsIsIntVal
  rw [if_pos (by decide)]

theorem jsIntVal_zero (m : Int) : jsIntVal m 0 = m := by
  unfold jsIntVal
  rw [if_pos (by decide)]
  simp

/-- Core of claim C5: every trimmed base-10 integer representation (of
magnitude inside the binary64-exact range) is accepted by `parseGuess`
with its denoted value. -/
theorem parseGuess_of_base10 (s : String)
    (h : isBase10IntString (trimChars s.data) = true)
    (hb : (base10Val (trimChars s.data)).natAbs < 2 ^ 53) :
    parseGuess s = some (base10Val (trimChars s.data)) := by
  unfold parseGuess
  match hts : trimChars s.data with
  | [] => rw [hts] at h; exact absurd h (by decide)
  | c :: cs =>
    rw [hts] at h hb
    rw [if_neg (by simp)]
    by_cases hneg : c = '-'
    · subst hneg
      have hall : cs ≠ [] ∧ cs.all Char.isDigit = true := by
        have := h
        simp only [isBase10IntString, eq_self_iff_true, if_true, Bool.and_eq_true,
          decide_eq_true_eq] at this
        exact ⟨by simpa using this.1, this.2⟩
      have hbv : base10Val ('-' :: cs) = -(decDigitsVal cs : Int) := by
        simp [base10Val]
      rw [hbv] at hb ⊢
      have h3 : decDigitsVal cs < 2 ^ 53 := by simpa using hb
      rw [jsStringToNumber_neg_digits cs hall.1 hall.2 h3]
      simp [jsIsIntVal_zero, jsIntVal_zero]
    · have hall : (c :: cs).all Char.isDigit = true := by
        have := h
        simp only [isBase10IntString, if_neg hneg] at this
        exact this
      have h1x : (c :: cs) ≠ ([] : List Char) := by simp
      have hbv : base10Val (c :: cs) = (decDigitsVal (c :: cs) : Int) := by
        simp [base10Val, hneg]
      rw [hbv] at hb ⊢
      have h3 : decDigitsVal (c :: cs) < 2 ^ 53 := by simpa using hb
      rw [jsStringToNumber_digits (c :: cs) h1x hall h3]
      simp [jsIsIntVal_zero, jsIntVal_zero]

/-! ## Claim C5 (corrected) -/

/-- C5 (amended): guess parsing accepts every input that trims to a
non-empty base-10 integer representation (with its denoted value, for
magnitudes inside the binary64-exact range), but the converse fails — the
code also accepts every other JavaScript numeric notation, e.g. "1e2" —
and for every input the parser rejects, `submitGuess` only rewrites the
hint to the whole-number message and returns `InvalidInput`, leaving
`attempts` unchanged. -/
theorem guess_parsing_accepts_base10 :
    (∀ s : String, isBase10IntString (trimChars s.data) = true →
        (base10Val (trimChars s.data)).natAbs < 2 ^ 53 →
        parseGuess s = some (base10Val (trimChars s.data)))
    ∧ ∀ (st : GameState) (s : String), st.gameOver = false → parseGuess s = none →
        handleSubmitGuess st s = ({ st with hint := invalidHint }, Outcome.invalidInput) :=
  ⟨fun s h hb => parseGuess_of_base10 s h hb,
   fun st s hgo hp => submit_invalid st s hgo hp⟩

set_option maxRecDepth 8000 in
/-- Witness for C5 on the base-10 input " -42 " and the rejected input
"abc". -/
theorem guess_parsing_accepts_base10_witness :
    isBase10IntString (trimChars " -42 ".data) = true
    ∧ parseGuess " -42 " = some (-42)
    ∧ handleSubmitGuess ⟨easyConfig, 7, 0, "hint", false⟩ "abc"
        = (⟨easyConfig, 7, 0, invalidHint, false⟩, Outcome.invalidInput) := by
  refine ⟨by decide, ?_, ?_⟩
  · have h := guess_parsing_accepts_base10.1 " -42 " (by decide) (by decide)
    have hv : base10Val (trimChars " -42 ".data) = -42 := by decide
    rwa [hv] at h
  · exact guess_parsing_accepts_base10.2 ⟨easyConfig, 7, 0, "hint", false⟩ "abc" rfl
      (by decide)

set_option maxRecDepth 8000 in
/-- C5 counterexample: the input "1e2" is not a base-10 integer
representation, yet `parseGuess` accepts it as 100, and `submitGuess` on an
easy round treats it as the guess 100 (rejecting it as out of range, not as
`InvalidInput`) — refuting both the if-and-only-if and the claimed
`InvalidInput` outcome for non-base-10 inputs. -/
theorem guess_parsing_not_base10_only :
    isBase10IntString (trimChars "1e2".data) = false
    ∧ parseGuess "1e2" = some 100
    ∧ handleSubmitGuess ⟨easyConfig, 7, 0, "hint", false⟩ "1e2"
        = (⟨easyConfig, 7, 0, rangeHint easyConfig, false⟩, Outcome.outOfRange) := by
  refine ⟨by decide, by decide, by decide⟩

/-! ## Lemmas about the comparator order -/

theorem charListLt_irrefl (l : List Char) : charListLt l l = false := by
  induction l with
  | nil => rfl
  | cons a as ih => simp [charListLt, ih]

theorem charListLt_asymm (l1 : List Char) :
    ∀ l2, charListLt l1 l2 = true → charListLt l2 l1 = false := by
  induction l1 with
  | nil =>
    intro l2 h
    cases l2 with
    | nil => exact absurd h (by decide)
    | cons b bs => rfl
  | cons a as ih =>
    intro l2 h
    cases l2 with
    | nil => simp [charListLt] at h
    | cons b bs =>
      by_cases hab : a.toNat < b.toNat
      · simp only [charListLt]
        rw [if_neg (by omega), if_pos hab]
      · by_cases hba : b.toNat < a.toNat
        · simp only [charListLt, if_neg hab, if_pos hba] at h
          exact absurd h (by decide)
        · simp only [charListLt, if_neg hab, if_neg hba] at h
          simp only [charListLt, if_neg hab, if_neg hba]
          exact ih bs h

theorem charListLt_trans (l1 : List Char) :
    ∀ l2 l3, charListLt l1 l2 = true → charListLt l2 l3 = true →
      charListLt l1 l3 = true := by
  induction l1 with
  | nil =>
    intro l2 l3 h1 h2
    cases l2 with
    | nil => exact absurd h1 (by decide)
    | cons b bs =>
      cases l3 with
      | nil => simp [charListLt] at h2
      | cons c cs => rfl
  | cons a as ih =>
    intro l2 l3 h1 h2
    cases l2 with
    | nil => simp [charListLt] at h1
    | cons b bs =>
      cases l3 with
      | nil => simp [charListLt] at h2
      | cons c cs =>
        simp only [charListLt] at h1 h2 ⊢
        by_cases hab : a.toNat < b.toNat
        · by_cases hbc : b.toNat < c.toNat
          · rw [if_pos (by omega)]
          · by_cases hcb : c.toNat < b.toNat
            · simp [hbc, hcb] at h2
            · rw [if_pos (by omega)]
        · by_cases hba : b.toNat < a.toNat
          · simp [hab, hba] at h1
          · by_cases hbc : b.toNat < c.toNat
            · rw [if_pos (by omega)]
            · by_cases hcb : c.toNat < b.toNat
              · simp [hbc, hcb] at h2
              · rw [if_neg (by omega), if_neg (by omega)]
                simp only [if_neg hab, if_neg hba] at h1
                simp only [if_neg hbc, if_neg hcb] at h2
                exact ih bs cs h1 h2

theorem charListLt_connex (l1 : List Char) :
    ∀ l2, charListLt l1 l2 = false → charListLt l2 l1 = false → l1 = l2 := by
  induction l1 with
  | nil =>
    intro l2 h1 _
    cases l2 with
    | nil => rfl
    | cons b bs => simp [charListLt] at h1
  | cons a as ih =>
    intro l2 h1 h2
    cases l2 with
    | nil => simp [charListLt] at h2
    | cons b bs =>
      simp only [charListLt] at h1 h2
      by_cases hab : a.toNat < b.toNat
      · simp [hab] at h1
      · by_cases hba : b.toNat < a.toNat
        · simp [hba, hab] at h2
        · simp only [if_neg hab, if_neg hba] at h1 h2
          have hn : a.toNat = b.toNat := by omega
          have hc : a = b := Char.ext (UInt32.toNat.inj hn)
          rw [hc, ih bs h1 h2]

theorem strLt_irrefl (s : String) : ¬ strLt s s := by
  simp [strLt, charListLt_irrefl]

theorem strLt_asymm (s t : String) (h : strLt s t) : ¬ strLt t s := by
  simp only [strLt] at h ⊢
  simp [charListLt_asymm s.data t.data h]

theorem strLt_trans (s t u : String) (h1 : strLt s t) (h2 : strLt t u) : strLt s u :=
  charListLt_trans s.data t.data u.data h1 h2

theorem strLt_connex (s t : String) (h1 : ¬ strLt s t) (h2 : ¬ strLt t s) : s = t := by
  cases s with
  | mk l1 =>
    cases t with
    | mk l2 =>
      simp only [strLt, Bool.not_eq_true] at h1 h2
      rw [charListLt_connex l1 l2 h1 h2]

theorem strLe_trans (s t u : String) (h1 : strLe s t) (h2 : strLe t u) : strLe s u := by
  rcases h1 with h1 | rfl
  · rcases h2 with h2 | rfl
    · exact Or.inl (strLt_trans s t u h1 h2)
    · exact Or.inl h1
  · exact h2

theorem difficultyOrder_inj (k1 k2 : DifficultyKey)
    (h : difficultyOrder k1 = difficultyOrder k2) : k1 = k2 := by
  cases k1 <;> cases k2 <;> first | rfl | exact absurd h (by decide)

theorem compareEntries_self (a : LeaderboardEntry) : compareEntries a a = 0 := by
  simp [compareEntries, localeCompareInt, strLt_irrefl]

theorem localeCompareInt_of_lt (s t : String) (h : strLt s t) :
    localeCompareInt s t = -1 := by
  unfold localeCompareInt
  rw [if_pos h]

theorem localeCompareInt_of_gt (s t : String) (h : strLt t s) :
    localeCompareInt s t = 1 := by
  unfold localeCompareInt
  rw [if_neg (strLt_asymm t s h), if_pos h]

theorem localeCompareInt_of_nlt (s t : String) (h1 : ¬ strLt s t) (h2 : ¬ strLt t s) :
    localeCompareInt s t = 0 := by
  unfold localeCompareInt
  rw [if_neg h1, if_neg h2]

theorem compareEntries_of_diff (a b : LeaderboardEntry)
    (hd : a.difficulty ≠ b.difficulty) :
    compareEntries a b
      = (difficultyOrder a.difficulty : Int) - (difficultyOrder b.difficulty : Int) := by
  unfold compareEntries
  rw [if_pos hd]

theorem compareEntries_of_att (a b : LeaderboardEntry)
    (hd : a.difficulty = b.difficulty) (hatt : a.attempts ≠ b.attempts) :
    compareEntries a b = (a.attempts : Int) - (b.attempts : Int) := by
  unfold compareEntries
  rw [if_neg (fun hne => hne hd), if_pos hatt]

theorem compareEntries_of_date (a b : LeaderboardEntry)
    (hd : a.difficulty = b.difficulty) (hatt : a.attempts = b.attempts) :
    compareEntries a b = localeCompareInt b.dateISO a.dateISO := by
  unfold compareEntries
  rw [if_neg (fun hne => hne hd), if_neg (fun hne => hne hatt)]

theorem compareEntries_antisymm (a b : LeaderboardEntry) :
    compareEntries b a = -compareEntries a b := by
  by_cases hd : a.difficulty = b.difficulty
  · by_cases hatt : a.attempts = b.attempts
    · rw [compareEntries_of_date a b hd hatt, compareEntries_of_date b a hd.symm hatt.symm]
      by_cases h1 : strLt a.dateISO b.dateISO
      · rw [localeCompareInt_of_lt _ _ h1, localeCompareInt_of_gt _ _ h1]
      · by_cases h2 : strLt b.dateISO a.dateISO
        · rw [localeCompareInt_of_gt _ _ h2, localeCompareInt_of_lt _ _ h2]
          decide
        · rw [localeCompareInt_of_nlt _ _ h2 h1, localeCompareInt_of_nlt _ _ h1 h2]
          decide
    · rw [compareEntries_of_att a b hd hatt,
          compareEntries_of_att b a hd.symm (fun he => hatt he.symm)]
      omega
  · rw [compareEntries_of_diff a b hd,
        compareEntries_of_diff b a (fun he => hd he.symm)]
    omega

theorem compare_le_iff (a b : LeaderboardEntry) :
    compareEntries a b ≤ 0 ↔ specRanksNoLowerThan a b := by
  by_cases hd : a.difficulty = b.difficulty
  · by_cases hatt : a.attempts = b.attempts
    · rw [compareEntries_of_date a b hd hatt]
      unfold specRanksNoLowerThan
      by_cases h1 : strLt b.dateISO a.dateISO
      · rw [localeCompareInt_of_lt _ _ h1]
        exact iff_of_true (by norm_num) (Or.inr (Or.inr ⟨hd, hatt, Or.inl h1⟩))
      · by_cases h2 : strLt a.dateISO b.dateISO
        · rw [localeCompareInt_of_gt _ _ h2]
          refine iff_of_false (by norm_num) ?_
          rintro (hlt | ⟨_, hlt⟩ | ⟨_, _, hle⟩)
          · rw [hd] at hlt
            exact absurd hlt (Nat.lt_irrefl _)
          · omega
          · rcases hle with h | h
            · exact h1 h
            · rw [h] at h2
              exact strLt_irrefl _ h2
        · rw [localeCompareInt_of_nlt _ _ h1 h2]
          have heq : b.dateISO = a.dateISO := strLt_connex _ _ h1 h2
          exact iff_of_true (by norm_num) (Or.inr (Or.inr ⟨hd, hatt, Or.inr heq⟩))
    · rw [compareEntries_of_att a b hd hatt]
      unfold specRanksNoLowerThan
      constructor
      · intro hle
        exact Or.inr (Or.inl ⟨hd, by omega⟩)
      · rintro (hlt | ⟨_, hlt⟩ | ⟨_, heq, _⟩)
        · rw [hd] at hlt
          exact absurd hlt (Nat.lt_irrefl _)
        · omega
        · exact absurd heq hatt
  · rw [compareEntries_of_diff a b hd]
    unfold specRanksNoLowerThan
    have hne : difficultyOrder a.difficulty ≠ difficultyOrder b.difficulty :=
      fun he => hd (difficultyOrder_inj _ _ he)
    constructor
    · intro hle
      exact Or.inl (by omega)
    · rintro (hlt | ⟨heq, _⟩ | ⟨heq, _, _⟩)
      · omega
      · exact absurd heq hd
      · exact absurd heq hd

theorem compare_lt_iff (a b : LeaderboardEntry) :
    compareEntries a b < 0 ↔ specRanksStrictlyAbove a b := by
  by_cases hd : a.difficulty = b.difficulty
  · by_cases hatt : a.attempts = b.attempts
    · rw [compareEntries_of_date a b hd hatt]
      unfold specRanksStrictlyAbove
      by_cases h1 : strLt b.dateISO a.dateISO
      · rw [localeCompareInt_of_lt _ _ h1]
        exact iff_of_true (by norm_num) (Or.inr (Or.inr ⟨hd, hatt, h1⟩))
      · have hnot : ¬ (difficultyOrder a.difficulty < difficultyOrder b.difficulty
            ∨ (a.difficulty = b.difficulty ∧ a.attempts < b.attempts)
            ∨ (a.difficulty = b.difficulty ∧ a.attempts = b.attempts
                ∧ strLt b.dateISO a.dateISO)) := by
          rintro (hlt | ⟨_, hlt⟩ | ⟨_, _, hlt⟩)
          · rw [hd] at hlt
            exact absurd hlt (Nat.lt_irrefl _)
          · omega
          · exact h1 hlt
        by_cases h2 : strLt a.dateISO b.dateISO
        · rw [localeCompareInt_of_gt _ _ h2]
          exact iff_of_false (by norm_num) hnot
        · rw [localeCompareInt_of_nlt _ _ h1 h2]
          exact iff_of_false (by norm_num) hnot
    · rw [compareEntries_of_att a b hd hatt]
      unfold specRanksStrictlyAbove
      constructor
      · intro hlt
        exact Or.inr (Or.inl ⟨hd, by omega⟩)
      · rintro (hlt | ⟨_, hlt⟩ | ⟨_, heq, _⟩)
        · rw [hd] at hlt
          exact absurd hlt (Nat.lt_irrefl _)
        · omega
        · exact absurd heq hatt
  · rw [compareEntries_of_diff a b hd]
    unfold specRanksStrictlyAbove
    have hne : difficultyOrder a.difficulty ≠ difficultyOrder b.difficulty :=
      fun he => hd (difficultyOrder_inj _ _ he)
    constructor
    · intro hlt
      exact Or.inl (by omega)
    · rintro (hlt | ⟨heq, _⟩ | ⟨heq, _, _⟩)
      · omega
      · exact absurd heq hd
      · exact absurd heq hd

theorem specLe_trans (a b c : LeaderboardEntry)
    (h1 : specRanksNoLowerThan a b) (h2 : specRanksNoLowerThan b c) :
    specRanksNoLowerThan a c := by
  rcases h1 with h1 | ⟨e1, h1⟩ | ⟨e1, e1a, h1⟩ <;>
    rcases h2 with h2 | ⟨e2, h2⟩ | ⟨e2, e2a, h2⟩
  · exact Or.inl (Nat.lt_trans h1 h2)
  · have := congrArg difficultyOrder e2
    exact Or.inl (by omega)
  · have := congrArg difficultyOrder e2
    exact Or.inl (by omega)
  · have := congrArg difficultyOrder e1
    exact Or.inl (by omega)
  · exact Or.inr (Or.inl ⟨e1.trans e2, Nat.lt_trans h1 h2⟩)
  · exact Or.inr (Or.inl ⟨e1.trans e2, by omega⟩)
  · have := congrArg difficultyOrder e1
    exact Or.inl (by omega)
  · exact Or.inr (Or.inl ⟨e1.trans e2, by omega⟩)
  · exact Or.inr (Or.inr ⟨e1.trans e2, e1a.trans e2a, strLe_trans _ _ _ h2 h1⟩)

theorem specLe_total (a b : LeaderboardEntry) :
    specRanksNoLowerThan a b ∨ specRanksNoLowerThan b a := by
  by_cases hd : a.difficulty = b.difficulty
  · by_cases hatt : a.attempts = b.attempts
    · by_cases h1 : strLt b.dateISO a.dateISO
      · exact Or.inl (Or.inr (Or.inr ⟨hd, hatt, Or.inl h1⟩))
      · by_cases h2 : strLt a.dateISO b.dateISO
        · exact Or.inr (Or.inr (Or.inr ⟨hd.symm, hatt.symm, Or.inl h2⟩))
        · exact Or.inl (Or.inr (Or.inr ⟨hd, hatt, Or.inr (strLt_connex _ _ h1 h2)⟩))
    · rcases Nat.lt_or_ge a.attempts b.attempts with h | h
      · exact Or.inl (Or.inr (Or.inl ⟨hd, h⟩))
      · exact Or.inr (Or.inr (Or.inl ⟨hd.symm, by omega⟩))
  · have hne : difficultyOrder a.difficulty ≠ difficultyOrder b.difficulty :=
      fun he => hd (difficultyOrder_inj _ _ he)
    rcases Nat.lt_or_ge (difficultyOrder a.difficulty) (difficultyOrder b.difficulty)
      with h | h
    · exact Or.inl (Or.inl h)
    · exact Or.inr (Or.inl (by omega))

theorem leEntries_total (a b : LeaderboardEntry) : leEntries a b ∨ leEntries b a := by
  unfold leEntries
  have := compareEntries_antisymm a b
  omega

theorem leEntries_iff (a b : LeaderboardEntry) :
    leEntries a b ↔ specRanksNoLowerThan a b :=
  compare_le_iff a b

theorem leEntries_trans (a b c : LeaderboardEntry)
    (h1 : leEntries a b) (h2 : leEntries b c) : leEntries a c :=
  (leEntries_iff a c).mpr
    (specLe_trans a b c ((leEntries_iff a b).mp h1) ((leEntries_iff b c).mp h2))

/-! ## Claims C2, C8, C9 -/

/-- C2: `sortLeaderboard` ranks by exactly the stated total order —
difficulty ascending in the fixed severity order easy < medium < hard
(dominating attempts), then fewer attempts, then the more recent timestamp —
the output is a permutation of the input sorted by that relation, the
relation is total, and the Ann / Bo / Cy scenario produces
`[Bo, Cy, Ann]`. -/
theorem leaderboard_rank_total_order :
    (∀ l : List LeaderboardEntry,
        (sortLeaderboard l).Perm l
        ∧ List.Sorted specRanksNoLowerThan (sortLeaderboard l))
    ∧ (∀ a b : LeaderboardEntry, specRanksNoLowerThan a b ∨ specRanksNoLowerThan b a)
    ∧ sortLeaderboard [annEntry, boEntry, cyEntry] = [boEntry, cyEntry, annEntry] := by
  refine ⟨fun l => ⟨List.perm_insertionSort _ _, ?_⟩, specLe_total, by decide⟩
  haveI : IsTotal LeaderboardEntry leEntries := ⟨leEntries_total⟩
  haveI : IsTrans LeaderboardEntry leEntries := ⟨leEntries_trans⟩
  have hs := List.sorted_insertionSort leEntries l
  exact hs.imp (fun h => (leEntries_iff _ _).mp h)

/-- C8: whenever the save path actually stores a win (a pending win exists
and the trimmed name is non-empty), the collection `handleSaveWin` returns
has been sorted and truncated to at most 50 entries in the same step. -/
theorem recordWin_caps_fifty (pend : Nat) (name : String)
    (lb : List LeaderboardEntry) (cfg : DifficultyConfig) (id dateISO : String)
    (h : jsTrim name ≠ "") :
    (handleSaveWin (some pend) name lb cfg id dateISO).1.length ≤ 50 := by
  simp only [handleSaveWin]
  rw [if_neg h]
  exact List.length_take_le 50 _

/-- Witness for C8 on a concrete save. -/
theorem recordWin_caps_fifty_witness :
    jsTrim "Al" ≠ ""
    ∧ (handleSaveWin (some 3) "Al" [] easyConfig "id1"
        "2024-03-01T10:00:00.000Z").1.length ≤ 50 :=
  ⟨by decide,
   recordWin_caps_fifty 3 "Al" [] easyConfig "id1" "2024-03-01T10:00:00.000Z"
     (by decide)⟩

/-- C9: with a pending win but a name that trims to the empty string,
`handleSaveWin` is a no-op on the collection and reports the
name-required validation failure. -/
theorem recordWin_empty_name_noop (pend : Nat) (name : String)
    (lb : List LeaderboardEntry) (cfg : DifficultyConfig) (id dateISO : String)
    (h : jsTrim name = "") :
    handleSaveWin (some pend) name lb cfg id dateISO = (lb, SaveOutcome.nameRequired) := by
  simp only [handleSaveWin]
  rw [if_pos h]

/-- Witness for C9 with a whitespace-only name. -/
theorem recordWin_empty_name_noop_witness :
    jsTrim "   " = ""
    ∧ handleSaveWin (some 3) "   " [annEntry] easyConfig "id1"
        "2024-03-01T10:00:00.000Z" = ([annEntry], SaveOutcome.nameRequired) :=
  ⟨by decide,
   recordWin_empty_name_noop 3 "   " [annEntry] easyConfig "id1"
     "2024-03-01T10:00:00.000Z" (by decide)⟩

/-! ## Claim C10 (corrected) -/

/-- C10 (amended): when the starting collection holds 50 entries that all
rank strictly above the newly recorded win, the truncation to 50 silently
drops the new entry — a successful save is not guaranteed to appear on the
leaderboard.  (Strictness is required: an entry whose ranking keys tie with
the new entry does not push it out, because the stable sort keeps the
prepended new entry first among ties.) -/
theorem full_board_drops_strictly_dominated (pend : Nat) (name : String)
    (lb : List LeaderboardEntry) (cfg : DifficultyConfig) (id dateISO : String)
    (hlen : lb.length = 50) (hname : jsTrim name ≠ "")
    (hdom : ∀ e ∈ lb, specRanksStrictlyAbove e (savedEntry pend name cfg id dateISO)) :
    savedEntry pend name cfg id dateISO
      ∉ (handleSaveWin (some pend) name lb cfg id dateISO).1 := by
  simp only [handleSaveWin]
  rw [if_neg hname]
  set en := savedEntry pend name cfg id dateISO with hen
  intro hmem0
  set S := sortLeaderboard (en :: lb) with hSdef
  have hmem : en ∈ S.take 50 := hmem0
  have hperm : S.Perm (en :: lb) := List.perm_insertionSort _ _
  haveI : IsTotal LeaderboardEntry leEntries := ⟨leEntries_total⟩
  haveI : IsTrans LeaderboardEntry leEntries := ⟨leEntries_trans⟩
  have hsorted : List.Pairwise leEntries S := by
    rw [hSdef]
    unfold sortLeaderboard
    exact List.sorted_insertionSort leEntries (en :: lb)
  have hennotin : en ∉ lb := by
    intro hmem2
    have h := (compare_lt_iff en en).mpr (hdom en hmem2)
    rw [compareEntries_self] at h
    exact absurd h (lt_irrefl 0)
  have hlenS : S.length = 51 := by
    rw [hperm.length_eq]
    simp [hlen]
  have hdroplen : (S.drop 50).length = 1 := by
    rw [List.length_drop, hlenS]
  obtain ⟨z, hz⟩ := List.length_eq_one.mp hdroplen
  have hsplit : S.take 50 ++ S.drop 50 = S := List.take_append_drop 50 S
  have hpair : ∀ x ∈ S.take 50, ∀ y ∈ S.drop 50, leEntries x y := by
    have hp := hsorted
    rw [← hsplit] at hp
    exact (List.pairwise_append.mp hp).2.2
  have hzmem : z ∈ S.drop 50 := by
    rw [hz]
    exact List.mem_singleton.mpr rfl
  have hle : leEntries en z := hpair en hmem z hzmem
  have hzS : z ∈ S := List.mem_of_mem_drop hzmem
  have hzcases : z = en ∨ z ∈ lb := by
    have hm := hperm.mem_iff.mp hzS
    simpa using hm
  rcases hzcases with rfl | hzlb
  · have hc : S.count en = (en :: lb).count en := hperm.count_eq en
    have hc1 : (en :: lb).count en = 1 := by
      rw [List.count_cons_self, List.count_eq_zero_of_not_mem hennotin]
    have hc2 : 2 ≤ S.count en := by
      rw [← hsplit, List.count_append]
      have h1 : 0 < (S.take 50).count en := List.count_pos_iff.mpr hmem
      have h2 : 0 < (S.drop 50).count en := List.count_pos_iff.mpr hzmem
      omega
    omega
  · have hlt := (compare_lt_iff z en).mpr (hdom z hzlb)
    have hanti := compareEntries_antisymm z en
    unfold leEntries at hle
    omega

/-- Witness for C10: 50 identical strictly-better entries (easy, 1 attempt)
push out a new easy 2-attempt win. -/
theorem full_board_drops_strictly_dominated_witness :
    (List.replicate 50 domOldEntry).length = 50
    ∧ jsTrim "New" ≠ ""
    ∧ (∀ e ∈ List.replicate 50 domOldEntry, specRanksStrictlyAbove e domNewEntry)
    ∧ domNewEntry ∉ (handleSaveWin (some 2) "New" (List.replicate 50 domOldEntry)
        easyConfig "new" tieDate).1 := by
  refine ⟨by decide, by decide, by decide, ?_⟩
  exact full_board_drops_strictly_dominated 2 "New" (List.replicate 50 domOldEntry)
    easyConfig "new" tieDate (by decide) (by decide) (by decide)

/-- C10 counterexample: 50 existing entries whose ranking keys all tie with
the new entry rank at (not below) the new entry, yet the new entry is kept —
the stable sort places the prepended new entry before every tie, so the
claim fails when "at or above" includes ties. -/
theorem tied_entries_keep_new_entry :
    (List.replicate 50 tieOldEntry).length = 50
    ∧ (∀ e ∈ List.replicate 50 tieOldEntry, specRanksNoLowerThan e tieNewEntry)
    ∧ tieNewEntry ∈ (handleSaveWin (some 3) "New" (List.replicate 50 tieOldEntry)
        easyConfig "new" tieDate).1 :=
  ⟨by decide, by decide, by decide⟩

/-! ## Claim C7 (corrected) -/

/-- C7 (amended): the startup load returns the empty collection whenever the
persisted value is absent, fails to parse, or parses to a non-array value —
for every possible behaviour of the parse function, so no parse failure can
propagate — but an array-shaped value is stored verbatim, without any
validation of its elements, so array-shaped data of an incompatible element
shape is not discarded. -/
theorem load_silent_recovery (parse : String → Option Json) :
    loadLeaderboard parse none = []
    ∧ (∀ s : String, parse s = none → loadLeaderboard parse (some s) = [])
    ∧ (∀ (s : String) (j : Json), parse s = some j → (∀ xs, j ≠ Json.arr xs) →
        loadLeaderboard parse (some s) = [])
    ∧ (∀ (s : String) (xs : List Json), s ≠ "" → parse s = some (Json.arr xs) →
        loadLeaderboard parse (some s) = xs) := by
  refine ⟨rfl, ?_, ?_, ?_⟩
  · intro s hp
    simp only [loadLeaderboard]
    by_cases hs : s = ""
    · rw [if_pos hs]
    · rw [if_neg hs, hp]
  · intro s j hp hj
    simp only [loadLeaderboard]
    by_cases hs : s = ""
    · rw [if_pos hs]
    · rw [if_neg hs, hp]
      cases j with
      | arr xs => exact absurd rfl (hj xs)
      | null => rfl
      | bool b => rfl
      | num n => rfl
      | str s2 => rfl
      | obj ms => rfl
  · intro s xs hs hp
    simp only [loadLeaderboard]
    rw [if_neg hs, hp]

/-- Witness for C7 with a concrete parse function agreeing with `JSON.parse`
on the used inputs. -/
theorem load_silent_recovery_witness :
    loadLeaderboard jsonParseSample none = []
    ∧ loadLeaderboard jsonParseSample (some "nope") = []
    ∧ loadLeaderboard jsonParseSample (some "7") = []
    ∧ loadLeaderboard jsonParseSample (some "[1]") = [Json.num 1] := by
  have h := load_silent_recovery jsonParseSample
  exact ⟨h.1, h.2.1 "nope" rfl,
    h.2.2.1 "7" (Json.num 7) rfl (fun xs he => Json.noConfusion he),
    h.2.2.2 "[1]" [Json.num 1] (by decide) rfl⟩

/-- C7 counterexample: the persisted text "[1]" — a JSON array holding the
number 1, an incompatible shape for a leaderboard entry — parses to an
array, so the load effect stores it verbatim instead of discarding it and
resetting the collection to empty. -/
theorem load_keeps_incompatible_array :
    loadLeaderboard jsonParseSample (some "[1]") = [Json.num 1]
    ∧ loadLeaderboard jsonParseSample (some "[1]") ≠ [] :=
  ⟨rfl, fun h => List.cons_ne_nil (Json.num 1) [] h⟩
